import Mathlib

/-!
# Verification of the backuppy streaming backup engine

Shallow embedding of `src/backup.py` (the streaming ZIP backup engine):
`iter_files_with_size`, `compression_from_args` and `backup_streaming`.

Filesystem trees are modelled as a mutual inductive (`FSNode`/`FSList`):
a node is either a non-directory entry (a regular file or some other
non-directory object such as a broken symlink, with a flag telling whether
`stat` succeeds on it) or a directory holding an ordered list of named
children.  Paths are lists of name components relative to the scanned root
(the Python code stores absolute paths and later takes
`fpath.relative_to(source)`; composing the two gives exactly these
component lists).  Wall-clock data (the `elapsed` argument of the progress
callback, and the timestamp embedded in the archive file name) is not
modelled: no claim constrains it.
-/

namespace Backuppy

/-- Constant `CHUNK_SIZE = 8 * 1024 * 1024` from backup.py line 26. -/
def CHUNK_SIZE : Nat := 8 * 1024 * 1024

/-- Constant `zipfile.ZIP_STORED` (the CPython value is 0). -/
def ZIP_STORED : Nat := 0

/-- Constant `zipfile.ZIP_DEFLATED` (the CPython value is 8). -/
def ZIP_DEFLATED : Nat := 8

/-- Constant `DEFAULT_EXCLUDES` from backup.py line 27. -/
def DEFAULT_EXCLUDES : List String :=
  [".git", "node_modules", "venv", "__pycache__", "dist", "build"]

mutual
/-- A filesystem object.  `file size statOk isRegular` is a directory entry
that `os.walk` reports in `fnames` (i.e. anything that is not a directory):
`size` is its `st_size`, `statOk` is whether `p.stat()` succeeds on it, and
`isRegular` is whether `p.is_file()` holds (false e.g. for a broken
symlink).  `dir children` is a directory with its ordered listing. -/
inductive FSNode where
  | file (size : Nat) (statOk : Bool) (isRegular : Bool)
  | dir (children : FSList)

/-- An ordered directory listing: a list of (name, node) pairs. -/
inductive FSList where
  | nil
  | cons (name : String) (node : FSNode) (rest : FSList)
end

/-- Check `source.is_dir()`: `none` models a missing path, `file` a non-directory. -/
def sourceIsDir : Option FSNode → Bool
  | some (FSNode.dir _) => true
  | _ => false

/-- The `for name in fnames` loop of `iter_files_with_size` (backup.py
lines 36-44) over one directory listing: for each non-directory entry, if
`p.stat()` raises the entry is skipped (`continue`), otherwise if
`p.is_file()` the path and size are recorded and the size added to the
running total.  Directory children are not part of `fnames`. -/
def dirFiles (path : List String) : FSList → List (List String × Nat) × Nat
  | FSList.nil => ([], 0)
  | FSList.cons name (FSNode.file sz statOk isRegular) rest =>
      let tail := dirFiles path rest
      if statOk && isRegular then ((path ++ [name], sz) :: tail.1, sz + tail.2)
      else tail
  | FSList.cons _ (FSNode.dir _) rest => dirFiles path rest

mutual
/-- Walk `os.walk` (top-down) combined with the body of `iter_files_with_size`
(backup.py lines 33-44): at each directory, the files of the current
listing are processed first, then each child directory whose name is not
in `excludes` is descended into, in listing order.  The pruning
`dirs[:] = [d for d in dirs if d not in excludes]` happens before any
descent, so excluded subtrees are never visited.  Called on a
non-directory it yields nothing, like `os.walk` on a non-directory. -/
def scanNode (excludes : List String) (path : List String) :
    FSNode → List (List String × Nat) × Nat
  | FSNode.file _ _ _ => ([], 0)
  | FSNode.dir cs =>
      let f := dirFiles path cs
      let s := scanSubdirs excludes path cs
      (f.1 ++ s.1, f.2 + s.2)

/-- The recursion of `os.walk` into the pruned child directories of one
listing, in order. -/
def scanSubdirs (excludes : List String) (path : List String) :
    FSList → List (List String × Nat) × Nat
  | FSList.nil => ([], 0)
  | FSList.cons _ (FSNode.file _ _ _) rest => scanSubdirs excludes path rest
  | FSList.cons name (FSNode.dir cs) rest =>
      let tail := scanSubdirs excludes path rest
      if name ∈ excludes then tail
      else
        let sub := scanNode excludes (path ++ [name]) (FSNode.dir cs)
        (sub.1 ++ tail.1, sub.2 + tail.2)
end

/-- Function `iter_files_with_size(root, excludes)` (backup.py lines 29-45): returns
the ordered file list (paths relative to the root, each with its size at
scan time) and the total size.  (`root.resolve()` only normalizes the
path and is not modelled.) -/
def iter_files_with_size (root : FSNode) (excludes : List String) :
    List (List String × Nat) × Nat :=
  scanNode excludes [] root

/-- Function `compression_from_args(kind, level)` (backup.py lines 47-53). -/
def compression_from_args (kind : String) (level : Option Nat) :
    Except String (Nat × Option Nat) :=
  if kind = "store" then Except.ok (ZIP_STORED, none)
  else if kind = "deflate" then Except.ok (ZIP_DEFLATED, some (level.getD 1))
  else Except.error ("Unknown compression kind: " ++ kind)

/-- A progress-callback invocation `progress_cb(processed, total, elapsed)`;
the wall-clock `elapsed` argument is not modelled. -/
structure ProgressEvent where
  processed : Nat
  total : Nat
deriving DecidableEq, Repr

/-- The sizes of the chunks `fr.read(CHUNK_SIZE)` yields for a file of
`size` bytes: full 8 MiB chunks followed by the remainder; the final empty
read that breaks the loop produces no chunk, so a 0-byte file yields no
chunks at all. -/
def chunkSizes (size : Nat) : List Nat :=
  List.replicate (size / CHUNK_SIZE) CHUNK_SIZE ++
    (if size % CHUNK_SIZE = 0 then [] else [size % CHUNK_SIZE])

/-- The per-chunk progress events of the write loop (backup.py lines
86-93), given the fixed `total`, the cumulative `processed` counter so far
and the remaining chunk lengths: after each chunk write, `processed`
advances by the chunk's length and the callback fires. -/
def writeEvents (total : Nat) : Nat → List Nat → List ProgressEvent
  | _, [] => []
  | processed, c :: cs =>
      { processed := processed + c, total := total } ::
        writeEvents total (processed + c) cs

/-- All chunk lengths of a run: the files in scan order, each cut into
chunks.  `processed` is a single cumulative counter across files, so the
per-chunk events of the run are exactly `writeEvents` over this list. -/
def runChunks (files : List (List String × Nat)) : List Nat :=
  (files.map (fun f => chunkSizes f.2)).flatten

/-- The full event sequence of a successful run: the per-chunk events,
then the unconditional final `progress_cb(total, total, ...)` of backup.py
lines 94-95. -/
def runEvents (files : List (List String × Nat)) (total : Nat) :
    List ProgressEvent :=
  writeEvents total 0 (runChunks files) ++ [{ processed := total, total := total }]

/-- Evaluation of `str(Path(source.name) / rel).replace("\\", "/")` (backup.py line 85)
at the level of path components: the components joined by the host
separator, then every backslash replaced by a forward slash — i.e. the
components joined by `"/"` (assuming, as on any sane tree, that no
component itself contains a backslash). -/
def joinComponents : List String → String
  | [] => ""
  | [c] => c
  | c :: rest => c ++ "/" ++ joinComponents rest

/-- The archive entry name for a file at relative path `rel`:
`arcname = Path(source.name) / rel`, stringified with separators
normalized to `"/"` (backup.py lines 84-85). -/
def arcnameOf (sourceName : String) (rel : List String) : String :=
  joinComponents (sourceName :: rel)

/-- One entry of the produced ZIP archive.  `method`/`level` record the
compression the entry is written with: `zf.open(..., mode="w")` uses the
`compression`/`compresslevel` the `ZipFile` was opened with, which are
fixed for the whole run (backup.py lines 74-81). -/
structure ArchiveEntry where
  name : String
  size : Nat
  method : Nat
  level : Option Nat
deriving DecidableEq, Repr

/-- The entries `backup_streaming` writes, in scan order. -/
def entriesOf (sourceName : String) (method : Nat) (level : Option Nat)
    (files : List (List String × Nat)) : List ArchiveEntry :=
  files.map (fun f =>
    { name := arcnameOf sourceName f.1, size := f.2, method := method, level := level })

/-- The two `ValueError`s `backup_streaming` can raise itself:
`"Source is not a directory: ..."` (line 62) and
`"No files to back up"` (line 66). -/
inductive BackupError where
  | invalidSource
  | emptySource
deriving DecidableEq, Repr

/-- Observable filesystem/side-effect steps of a run, in order:
`dest_dir.mkdir(parents=True, exist_ok=True)` (line 63), the scan pass
(line 64), and opening the archive file for writing (line 74). -/
inductive Effect where
  | mkdirDest
  | scanSource
  | openArchive
deriving DecidableEq, Repr

/-- What a successful run produced: the archive's entries and the progress
events observed by the callback. -/
structure ArchiveRun where
  entries : List ArchiveEntry
  events : List ProgressEvent
deriving DecidableEq, Repr

/-- Termination of a run: a raised `ValueError` or a completed archive. -/
inductive RunResult where
  | failure (e : BackupError)
  | success (run : ArchiveRun)
deriving DecidableEq, Repr

/-- A run's observable outcome: the ordered trace of side-effect steps
that happened, and how the run terminated. -/
structure RunOutcome where
  trace : List Effect
  result : RunResult
deriving DecidableEq, Repr

/-- Function `backup_streaming(source, dest_dir, compression, compresslevel,
excludes, progress_cb)` (backup.py lines 55-96).  `source` is `none` when
the path does not exist.  Line order is mirrored exactly: the
`source.is_dir()` check (61-62) precedes `dest_dir.mkdir` (63), which
precedes the scan (64); the `total == 0` check (65-66) precedes opening
the archive (74); the archive name's timestamp is wall-clock and not
modelled.  The progress callback is modelled as always present and as
recording its arguments. -/
def backup_streaming (sourceName : String) (source : Option FSNode)
    (compression : Nat) (compresslevel : Option Nat)
    (excludes : List String) : RunOutcome :=
  match source with
  | some (FSNode.dir cs) =>
      let scanned := iter_files_with_size (FSNode.dir cs) excludes
      if scanned.2 = 0 then
        { trace := [Effect.mkdirDest, Effect.scanSource],
          result := RunResult.failure BackupError.emptySource }
      else
        { trace := [Effect.mkdirDest, Effect.scanSource, Effect.openArchive],
          result := RunResult.success
            { entries := entriesOf sourceName compression compresslevel scanned.1,
              events := runEvents scanned.1 scanned.2 } }
  | _ =>
      { trace := [], result := RunResult.failure BackupError.invalidSource }

/-- The events of an outcome (empty when the run failed: a failed run
never invoked the callback). -/
def eventsOf (o : RunOutcome) : List ProgressEvent :=
  match o.result with
  | RunResult.success run => run.events
  | RunResult.failure _ => []

mutual
/-- The same tree with every non-directory entry on which `stat` fails
removed.  Scanning is insensitive to this erasure: exactly the statement
that unstat-able files are silently skipped, contribute nothing to list or
total, and do not disturb the rest of the walk. -/
def dropUnstatNode : FSNode → FSNode
  | FSNode.file sz statOk isRegular => FSNode.file sz statOk isRegular
  | FSNode.dir cs => FSNode.dir (dropUnstatList cs)

/-- The erasure on one directory listing. -/
def dropUnstatList : FSList → FSList
  | FSList.nil => FSList.nil
  | FSList.cons name (FSNode.file sz statOk isRegular) rest =>
      if statOk then
        FSList.cons name (FSNode.file sz statOk isRegular) (dropUnstatList rest)
      else dropUnstatList rest
  | FSList.cons name (FSNode.dir cs) rest =>
      FSList.cons name (FSNode.dir (dropUnstatList cs)) (dropUnstatList rest)
end

/-- The spec's concrete scenario (§8): `proj/{a.txt(5B), .git/x(100B),
sub/b.txt(10B)}`. -/
def demoTree : FSNode :=
  FSNode.dir (FSList.cons "a.txt" (FSNode.file 5 true true)
    (FSList.cons ".git" (FSNode.dir (FSList.cons "x" (FSNode.file 100 true true) FSList.nil))
      (FSList.cons "sub" (FSNode.dir (FSList.cons "b.txt" (FSNode.file 10 true true) FSList.nil))
        FSList.nil)))

/-- The run `backup_streaming "proj" demoTree ZIP_STORED none [".git"]`
produces: entries `proj/a.txt` and `proj/sub/b.txt`, per-chunk events
(5, 15) and (15, 15), and the terminal event (15, 15). -/
def demoRun : ArchiveRun :=
  { entries :=
      [{ name := "proj/a.txt", size := 5, method := 0, level := none },
       { name := "proj/sub/b.txt", size := 10, method := 0, level := none }],
    events :=
      [{ processed := 5, total := 15 },
       { processed := 15, total := 15 },
       { processed := 15, total := 15 }] }

/-- An empty source directory. -/
def emptyTree : FSNode := FSNode.dir FSList.nil

/-- A source directory holding a single 0-byte file. -/
def zeroTree : FSNode :=
  FSNode.dir (FSList.cons "empty.txt" (FSNode.file 0 true true) FSList.nil)

/-- demoTree with an unreadable (stat-failing) 100-byte entry added in
front of `a.txt`. -/
def demoTreeUnstat : FSNode :=
  FSNode.dir (FSList.cons "locked.bin" (FSNode.file 100 false true)
    (FSList.cons "a.txt" (FSNode.file 5 true true)
      (FSList.cons ".git" (FSNode.dir (FSList.cons "x" (FSNode.file 100 true true) FSList.nil))
        (FSList.cons "sub" (FSNode.dir (FSList.cons "b.txt" (FSNode.file 10 true true) FSList.nil))
          FSList.nil))))

/-! ### Scanner lemmas -/

/-- Every file recorded by the `fnames` loop of one listing lies directly
in that directory: its path is the directory's path plus one name. -/
theorem dirFiles_shape (path : List String) :
    ∀ (l : FSList) (p : List String) (sz : Nat),
      (p, sz) ∈ (dirFiles path l).1 → ∃ name, p = path ++ [name]
  | FSList.cons name (FSNode.file s statOk isRegular) rest, p, sz, h => by
      by_cases hk : (statOk && isRegular) = true
      · simp only [dirFiles, hk, if_true, List.mem_cons, Prod.mk.injEq] at h
        rcases h with ⟨hp, _⟩ | h
        · exact ⟨name, hp⟩
        · exact dirFiles_shape path rest p sz h
      · simp only [dirFiles, hk, if_false] at h
        exact dirFiles_shape path rest p sz h
  | FSList.cons name (FSNode.dir cs) rest, p, sz, h =>
      dirFiles_shape path rest p sz h

mutual
/-- Every file the scan records under prefix `path` extends `path` by a
non-empty component list whose directory components (all but the file
name itself) avoid the exclusion set: pruning excluded directory names
before descending means no recorded path passes through one. -/
theorem scanNode_shape (ex : List String) :
    ∀ (path : List String) (t : FSNode) (p : List String) (sz : Nat),
      (p, sz) ∈ (scanNode ex path t).1 →
      ∃ q, p = path ++ q ∧ q ≠ [] ∧ ∀ d ∈ q.dropLast, d ∉ ex
  | path, FSNode.file _ _ _, p, sz, h => by simp [scanNode] at h
  | path, FSNode.dir cs, p, sz, h => by
      simp only [scanNode, List.mem_append] at h
      rcases h with h | h
      · obtain ⟨name, hp⟩ := dirFiles_shape path cs p sz h
        exact ⟨[name], hp, by simp, by simp⟩
      · exact scanSubdirs_shape ex path cs p sz h

/-- The same property for the recursion into one listing's subdirectories. -/
theorem scanSubdirs_shape (ex : List String) :
    ∀ (path : List String) (l : FSList) (p : List String) (sz : Nat),
      (p, sz) ∈ (scanSubdirs ex path l).1 →
      ∃ q, p = path ++ q ∧ q ≠ [] ∧ ∀ d ∈ q.dropLast, d ∉ ex
  | path, FSList.cons _ (FSNode.file _ _ _) rest, p, sz, h =>
      scanSubdirs_shape ex path rest p sz h
  | path, FSList.cons name (FSNode.dir cs) rest, p, sz, h => by
      by_cases hmem : name ∈ ex
      · simp only [scanSubdirs, if_pos hmem] at h
        exact scanSubdirs_shape ex path rest p sz h
      · simp only [scanSubdirs, if_neg hmem, List.mem_append] at h
        rcases h with h | h
        · obtain ⟨q, hp, hq, hclean⟩ :=
            scanNode_shape ex (path ++ [name]) (FSNode.dir cs) p sz h
          refine ⟨name :: q, by simpa [List.append_assoc] using hp, by simp, ?_⟩
          intro d hd
          rw [List.dropLast_cons_of_ne_nil hq, List.mem_cons] at hd
          rcases hd with rfl | hd
          · exact hmem
          · exact hclean d hd
        · exact scanSubdirs_shape ex path rest p sz h
end

/-- The running total of the `fnames` loop is the sum of the recorded
sizes. -/
theorem dirFiles_total (path : List String) :
    ∀ l : FSList, (dirFiles path l).2 = ((dirFiles path l).1.map Prod.snd).sum
  | FSList.nil => rfl
  | FSList.cons name (FSNode.file s statOk isRegular) rest => by
      by_cases hk : (statOk && isRegular) = true
      · simp [dirFiles, hk, dirFiles_total path rest]
      · simp [dirFiles, hk, dirFiles_total path rest]
  | FSList.cons name (FSNode.dir cs) rest => dirFiles_total path rest

mutual
/-- The scan's total is the sum of the sizes of the files it records. -/
theorem scanNode_total (ex : List String) :
    ∀ (path : List String) (t : FSNode),
      (scanNode ex path t).2 = ((scanNode ex path t).1.map Prod.snd).sum
  | _, FSNode.file _ _ _ => rfl
  | path, FSNode.dir cs => by
      simp [scanNode, dirFiles_total path cs, scanSubdirs_total ex path cs]

/-- The same for the subdirectory recursion. -/
theorem scanSubdirs_total (ex : List String) :
    ∀ (path : List String) (l : FSList),
      (scanSubdirs ex path l).2 = ((scanSubdirs ex path l).1.map Prod.snd).sum
  | _, FSList.nil => rfl
  | path, FSList.cons _ (FSNode.file _ _ _) rest => scanSubdirs_total ex path rest
  | path, FSList.cons name (FSNode.dir cs) rest => by
      by_cases hmem : name ∈ ex
      · simp only [scanSubdirs, if_pos hmem]
        exact scanSubdirs_total ex path rest
      · simp [scanSubdirs, if_neg hmem,
          scanNode_total ex (path ++ [name]) (FSNode.dir cs),
          scanSubdirs_total ex path rest]
end

/-! ### Chunk and progress-event lemmas -/

/-- The chunks of a file cover exactly its bytes. -/
theorem chunkSizes_sum (s : Nat) : (chunkSizes s).sum = s := by
  by_cases h : s % CHUNK_SIZE = 0
  · simp only [chunkSizes, if_pos h, List.append_nil, List.sum_const_nat]
    simp only [CHUNK_SIZE] at h ⊢
    omega
  · simp only [chunkSizes, if_neg h, List.sum_append, List.sum_cons, List.sum_nil,
      List.sum_const_nat]
    simp only [CHUNK_SIZE] at h ⊢
    omega

/-- Every chunk `fr.read` yields before the terminating empty read is
non-empty. -/
theorem chunkSizes_pos (s : Nat) : ∀ c ∈ chunkSizes s, 0 < c := by
  intro c hc
  rw [chunkSizes, List.mem_append] at hc
  rcases hc with hc | hc
  · rw [List.eq_of_mem_replicate hc]
    decide
  · by_cases h : s % CHUNK_SIZE = 0
    · simp [h] at hc
    · simp only [h, if_false, List.mem_singleton] at hc
      omega

/-- The chunks of a run cover exactly the scanned bytes. -/
theorem runChunks_sum :
    ∀ files : List (List String × Nat),
      (runChunks files).sum = (files.map Prod.snd).sum
  | [] => rfl
  | f :: rest => by
      have ih := runChunks_sum rest
      simp only [runChunks] at ih ⊢
      rw [List.map_cons, List.flatten_cons, List.sum_append, chunkSizes_sum, ih,
        List.map_cons, List.sum_cons]

/-- Every chunk of a run is non-empty. -/
theorem runChunks_pos (files : List (List String × Nat)) :
    ∀ c ∈ runChunks files, 0 < c := by
  intro c hc
  rw [runChunks, List.mem_flatten] at hc
  obtain ⟨l, hl, hcl⟩ := hc
  rw [List.mem_map] at hl
  obtain ⟨f, _, rfl⟩ := hl
  exact chunkSizes_pos f.2 c hcl

/-- Every per-chunk event carries the fixed `total`. -/
theorem writeEvents_total (total : Nat) :
    ∀ (cs : List Nat) (acc : Nat) (e : ProgressEvent),
      e ∈ writeEvents total acc cs → e.total = total
  | [], _, _, h => by simp [writeEvents] at h
  | c :: cs, acc, e, h => by
      rcases List.mem_cons.mp h with rfl | h
      · rfl
      · exact writeEvents_total total cs (acc + c) e h

/-- Counter `processed` never exceeds the starting counter plus the remaining
chunk bytes. -/
theorem writeEvents_processed_le (total : Nat) :
    ∀ (cs : List Nat) (acc : Nat) (e : ProgressEvent),
      e ∈ writeEvents total acc cs → e.processed ≤ acc + cs.sum
  | [], _, _, h => by simp [writeEvents] at h
  | c :: cs, acc, e, h => by
      rcases List.mem_cons.mp h with rfl | h
      · simp only [List.sum_cons]
        omega
      · have := writeEvents_processed_le total cs (acc + c) e h
        simp only [List.sum_cons]
        omega

/-- The cumulative counter is non-decreasing across the per-chunk events. -/
theorem writeEvents_chain (total : Nat) :
    ∀ (cs : List Nat) (acc : Nat),
      List.Chain' (fun a b => a ≤ b)
        ((writeEvents total acc cs).map ProgressEvent.processed)
  | [], _ => List.chain'_nil
  | [c], acc => by simp [writeEvents]
  | c :: c2 :: rest, acc => by
      have ih := writeEvents_chain total (c2 :: rest) (acc + c)
      simp only [writeEvents, List.map_cons] at ih ⊢
      exact List.chain'_cons.mpr ⟨Nat.le_add_right _ _, ih⟩

/-- With all chunks non-empty and the chunks summing (from `acc`) to
`total`, exactly one per-chunk event reaches `processed = total`: the one
after the final chunk. -/
theorem writeEvents_countP (total : Nat) :
    ∀ (cs : List Nat) (acc : Nat), (∀ c ∈ cs, 0 < c) → acc + cs.sum = total →
      cs ≠ [] →
      (writeEvents total acc cs).countP (fun e => e.processed == e.total) = 1
  | [], _, _, _, hne => absurd rfl hne
  | [c], acc, _, hsum, _ => by
      have hc : acc + c = total := by simpa using hsum
      simp [writeEvents, List.countP_cons, hc]
  | c :: c2 :: rest, acc, hpos, hsum, _ => by
      have h2 : 0 < c2 := hpos c2 (by simp)
      have hsum' : acc + c + (c2 :: rest).sum = total := by
        simp only [List.sum_cons] at hsum ⊢
        omega
      have hne : acc + c ≠ total := by
        have : 0 < (c2 :: rest).sum := by
          simp only [List.sum_cons]
          omega
        omega
      have ih := writeEvents_countP total (c2 :: rest) (acc + c)
        (fun x hx => hpos x (List.mem_cons_of_mem _ hx)) hsum' (by simp)
      simp only [writeEvents] at ih ⊢
      simp [List.countP_cons, hne, ih]

/-! ### Run-level lemmas -/

/-- Every event of a run carries the scan-time total. -/
theorem runEvents_total (files : List (List String × Nat)) (total : Nat) :
    ∀ e ∈ runEvents files total, e.total = total := by
  intro e he
  rw [runEvents, List.mem_append] at he
  rcases he with he | he
  · exact writeEvents_total total _ 0 e he
  · rw [List.mem_singleton] at he
    rw [he]

/-- The event counter of a run is non-decreasing, including into the
terminal event. -/
theorem runEvents_chain (files : List (List String × Nat)) (total : Nat)
    (htot : (files.map Prod.snd).sum = total) :
    List.Chain' (fun a b => a ≤ b)
      ((runEvents files total).map ProgressEvent.processed) := by
  rw [runEvents, List.map_append, List.chain'_append]
  refine ⟨writeEvents_chain total _ 0, by simp, ?_⟩
  intro x hx y hy
  simp only [List.map_cons, List.map_nil, List.head?_cons, Option.mem_def,
    Option.some.injEq] at hy
  have hxmem : x ∈ (writeEvents total 0 (runChunks files)).map ProgressEvent.processed :=
    List.mem_of_getLast?_eq_some hx
  rw [List.mem_map] at hxmem
  obtain ⟨e, he, rfl⟩ := hxmem
  have hle := writeEvents_processed_le total (runChunks files) 0 e he
  rw [runChunks_sum files, htot] at hle
  omega

/-- A run ends with the terminal event `(total, total)`. -/
theorem runEvents_getLast (files : List (List String × Nat)) (total : Nat) :
    (runEvents files total).getLast? = some { processed := total, total := total } :=
  List.getLast?_concat _

/-- When the scanned bytes are non-zero, `processed = total` holds in
exactly two events of a run: the event after the final chunk, and the
terminal event. -/
theorem runEvents_countP (files : List (List String × Nat)) (total : Nat)
    (htot : (files.map Prod.snd).sum = total) (h0 : total ≠ 0) :
    (runEvents files total).countP (fun e => e.processed == e.total) = 2 := by
  have hchunks : runChunks files ≠ [] := by
    intro hnil
    have hs := runChunks_sum files
    rw [hnil, htot] at hs
    exact h0 hs.symm
  rw [runEvents, List.countP_append,
    writeEvents_countP total (runChunks files) 0 (runChunks_pos files)
      (by rw [Nat.zero_add, runChunks_sum files, htot]) hchunks]
  simp [List.countP_cons]

/-! ### Erasure of unstat-able files -/

/-- The `fnames` loop ignores entries whose `stat` raises. -/
theorem dirFiles_dropUnstat (path : List String) :
    ∀ l : FSList, dirFiles path (dropUnstatList l) = dirFiles path l
  | FSList.nil => rfl
  | FSList.cons name (FSNode.file sz true isRegular) rest => by
      simp only [dropUnstatList, if_true, dirFiles, dirFiles_dropUnstat path rest]
  | FSList.cons name (FSNode.file sz false isRegular) rest => by
      simp only [dropUnstatList, Bool.false_eq_true, if_false, dirFiles, Bool.false_and,
        dirFiles_dropUnstat path rest]
  | FSList.cons name (FSNode.dir cs) rest => by
      simp only [dropUnstatList, dirFiles, dirFiles_dropUnstat path rest]

mutual
/-- Scanning is blind to unstat-able files: erasing them from the tree
leaves both the file list and the total unchanged. -/
theorem scanNode_dropUnstat (ex : List String) :
    ∀ (path : List String) (t : FSNode),
      scanNode ex path (dropUnstatNode t) = scanNode ex path t
  | _, FSNode.file _ _ _ => rfl
  | path, FSNode.dir cs => by
      simp only [dropUnstatNode, scanNode, dirFiles_dropUnstat path cs,
        scanSubdirs_dropUnstat ex path cs]

/-- The same for the subdirectory recursion. -/
theorem scanSubdirs_dropUnstat (ex : List String) :
    ∀ (path : List String) (l : FSList),
      scanSubdirs ex path (dropUnstatList l) = scanSubdirs ex path l
  | _, FSList.nil => rfl
  | path, FSList.cons name (FSNode.file sz true isRegular) rest => by
      simp only [dropUnstatList, if_true, scanSubdirs, scanSubdirs_dropUnstat ex path rest]
  | path, FSList.cons name (FSNode.file sz false isRegular) rest => by
      simp only [dropUnstatList, Bool.false_eq_true, if_false, scanSubdirs,
        scanSubdirs_dropUnstat ex path rest]
  | path, FSList.cons name (FSNode.dir cs) rest => by
      have hnode := scanNode_dropUnstat ex (path ++ [name]) (FSNode.dir cs)
      simp only [dropUnstatNode] at hnode
      by_cases hmem : name ∈ ex
      · simp only [dropUnstatList, scanSubdirs, if_pos hmem,
          scanSubdirs_dropUnstat ex path rest]
      · simp only [dropUnstatList, scanSubdirs, if_neg hmem, hnode,
          scanSubdirs_dropUnstat ex path rest]
end

/-! ### Outcome inversion -/

/-- A successful run means: the source was a directory, the scan total was
non-zero, and the run is the archive/event sequence computed from the scan. -/
theorem backup_streaming_success (sourceName : String) (source : Option FSNode)
    (compression : Nat) (compresslevel : Option Nat) (excludes : List String)
    (run : ArchiveRun)
    (h : (backup_streaming sourceName source compression compresslevel excludes).result
          = RunResult.success run) :
    ∃ t, source = some t ∧
      (iter_files_with_size t excludes).2 ≠ 0 ∧
      run = { entries :=
                entriesOf sourceName compression compresslevel
                  (iter_files_with_size t excludes).1,
              events :=
                runEvents (iter_files_with_size t excludes).1
                  (iter_files_with_size t excludes).2 } :=
  match source with
  | none => by simp [backup_streaming] at h
  | some (FSNode.file sz statOk isRegular) => by simp [backup_streaming] at h
  | some (FSNode.dir cs) => by
      by_cases h0 : (iter_files_with_size (FSNode.dir cs) excludes).2 = 0
      · simp [backup_streaming, h0] at h
      · refine ⟨FSNode.dir cs, rfl, h0, ?_⟩
        simp [backup_streaming, h0] at h
        exact h.symm

/-- Every archive entry is the image of a scanned file: name built by
`arcnameOf`, size the scanned size, compression the run's fixed choice. -/
theorem entriesOf_mem (sourceName : String) (method : Nat) (level : Option Nat)
    (files : List (List String × Nat)) (e : ArchiveEntry)
    (h : e ∈ entriesOf sourceName method level files) :
    ∃ p sz, (p, sz) ∈ files ∧
      e = { name := arcnameOf sourceName p, size := sz,
            method := method, level := level } := by
  rw [entriesOf, List.mem_map] at h
  obtain ⟨f, hf, rfl⟩ := h
  exact ⟨f.1, f.2, by simpa using hf, rfl⟩

/-- For a file at positive depth, the arcname splits as
`<source name>/<relative path joined by forward slashes>`. -/
theorem arcnameOf_cons (sourceName : String) (p : List String) (hp : p ≠ []) :
    arcnameOf sourceName p = sourceName ++ "/" ++ joinComponents p := by
  match p with
  | [] => exact absurd rfl hp
  | a :: rest => rfl

/-! ### The claims -/

/-- C1: for every directory tree and exclusion set, no file lying under a
directory whose base name is excluded (at any depth below the root)
appears in the scan result — every scanned path's directory components
avoid the exclusion set, because `dirs[:] = [d for d in dirs if d not in
excludes]` prunes excluded directories before `os.walk` descends — nor as
an entry of the produced archive, every entry being named from such a
scanned path. -/
theorem c1_no_excluded_dir_content (excludes : List String) (t : FSNode) :
    (∀ p sz, (p, sz) ∈ (iter_files_with_size t excludes).1 →
        ∀ d ∈ p.dropLast, d ∉ excludes) ∧
    (∀ (sourceName : String) (compression : Nat) (compresslevel : Option Nat)
        (run : ArchiveRun),
      (backup_streaming sourceName (some t) compression compresslevel excludes).result
          = RunResult.success run →
      ∀ e ∈ run.entries, ∃ p sz,
        (p, sz) ∈ (iter_files_with_size t excludes).1 ∧
        e.name = arcnameOf sourceName p ∧ ∀ d ∈ p.dropLast, d ∉ excludes) := by
  have hscan : ∀ p sz, (p, sz) ∈ (iter_files_with_size t excludes).1 →
      ∀ d ∈ p.dropLast, d ∉ excludes := by
    intro p sz hmem d hd
    obtain ⟨q, rfl, hq, hclean⟩ := scanNode_shape excludes [] t p sz hmem
    exact hclean d (by simpa using hd)
  refine ⟨hscan, ?_⟩
  intro sourceName compression compresslevel run hrun e he
  obtain ⟨t', ht', h0, rfl⟩ := backup_streaming_success sourceName (some t)
    compression compresslevel excludes run hrun
  obtain rfl := Option.some.inj ht'
  obtain ⟨p, sz, hmem, rfl⟩ := entriesOf_mem _ _ _ _ e he
  exact ⟨p, sz, hmem, rfl, hscan p sz hmem⟩

/-- Witness for C1 at the spec's §8 scenario: `sub/b.txt` is scanned with
excludes `{.git}`, and its directory component `sub` is not excluded. -/
theorem c1_no_excluded_dir_content_witness :
    (["sub", "b.txt"], 10) ∈ (iter_files_with_size demoTree [".git"]).1 ∧
    "sub" ∉ ([".git"] : List String) :=
  ⟨by decide,
    (c1_no_excluded_dir_content [".git"] demoTree).1 ["sub", "b.txt"] 10 (by decide)
      "sub" (by decide)⟩

/-- C2 counterexample: in the §8 scenario run, the claim's
"`bytesProcessed` equals `bytesTotal` exactly once" is false — the event
after the last chunk already reports `(15, 15)` and the terminal event
repeats it, so the count is 2, not 1. -/
theorem c2_exactly_once_counterexample :
    (backup_streaming "proj" (some demoTree) ZIP_STORED none [".git"]).result
        = RunResult.success demoRun ∧
    ¬ (demoRun.events.countP (fun e => e.processed == e.total) = 1) := by
  exact ⟨by decide, by decide⟩

/-- C2 (amended): for every successful run (sizes unchanged between scan
and write, as in this model), `bytesProcessed` is non-decreasing from one
event to the next and equals `bytesTotal` on the final event; but it
equals `bytesTotal` exactly twice — on the event after the final chunk and
on the terminal event — not exactly once. -/
theorem c2_progress_monotone_terminal (sourceName : String) (source : Option FSNode)
    (compression : Nat) (compresslevel : Option Nat) (excludes : List String)
    (run : ArchiveRun)
    (h : (backup_streaming sourceName source compression compresslevel excludes).result
          = RunResult.success run) :
    List.Chain' (fun a b => a ≤ b) (run.events.map ProgressEvent.processed) ∧
    (∀ e, run.events.getLast? = some e → e.processed = e.total) ∧
    run.events.countP (fun e => e.processed == e.total) = 2 := by
  obtain ⟨t, -, h0, rfl⟩ := backup_streaming_success sourceName source
    compression compresslevel excludes run h
  have htot : ((iter_files_with_size t excludes).1.map Prod.snd).sum
      = (iter_files_with_size t excludes).2 := (scanNode_total excludes [] t).symm
  refine ⟨runEvents_chain _ _ htot, ?_, runEvents_countP _ _ htot h0⟩
  intro e he
  rw [runEvents_getLast] at he
  obtain rfl := Option.some.inj he.symm
  rfl

/-- Witness for C2 (amended) at the §8 scenario. -/
theorem c2_progress_monotone_terminal_witness :
    (backup_streaming "proj" (some demoTree) ZIP_STORED none [".git"]).result
        = RunResult.success demoRun ∧
    demoRun.events.countP (fun e => e.processed == e.total) = 2 :=
  ⟨by decide,
    (c2_progress_monotone_terminal "proj" (some demoTree) ZIP_STORED none [".git"]
      demoRun (by decide)).2.2⟩

/-- C3: in every successful run, every progress event carries as
`bytesTotal` the scan-pass total, which equals the sum of the file sizes
observed during the scan; the value is the same in every event. -/
theorem c3_total_constant_eq_scan_sum (sourceName : String) (t : FSNode)
    (compression : Nat) (compresslevel : Option Nat) (excludes : List String)
    (run : ArchiveRun)
    (h : (backup_streaming sourceName (some t) compression compresslevel excludes).result
          = RunResult.success run) :
    (∀ e ∈ run.events, e.total = (iter_files_with_size t excludes).2) ∧
    (iter_files_with_size t excludes).2
      = ((iter_files_with_size t excludes).1.map Prod.snd).sum := by
  obtain ⟨t', ht', h0, rfl⟩ := backup_streaming_success sourceName (some t)
    compression compresslevel excludes run h
  obtain rfl := Option.some.inj ht'
  exact ⟨runEvents_total _ _, scanNode_total excludes [] t⟩

/-- Witness for C3 at the §8 scenario: the total 15 = 5 + 10. -/
theorem c3_total_constant_eq_scan_sum_witness :
    (backup_streaming "proj" (some demoTree) ZIP_STORED none [".git"]).result
        = RunResult.success demoRun ∧
    (iter_files_with_size demoTree [".git"]).2
      = ((iter_files_with_size demoTree [".git"]).1.map Prod.snd).sum :=
  ⟨by decide,
    (c3_total_constant_eq_scan_sum "proj" demoTree ZIP_STORED none [".git"] demoRun
      (by decide)).2⟩

/-- C4: every file of the scan result appears in the archive under the
entry name `<source basename>/<path relative to the source root>`, joined
with forward slashes on every platform (`str(arcname).replace("\\", "/")`). -/
theorem c4_entry_names (sourceName : String) (t : FSNode) (compression : Nat)
    (compresslevel : Option Nat) (excludes : List String) (run : ArchiveRun)
    (h : (backup_streaming sourceName (some t) compression compresslevel excludes).result
          = RunResult.success run) :
    ∀ p sz, (p, sz) ∈ (iter_files_with_size t excludes).1 →
      { name := sourceName ++ "/" ++ joinComponents p, size := sz,
        method := compression, level := compresslevel } ∈ run.entries := by
  intro p sz hmem
  obtain ⟨t', ht', h0, rfl⟩ := backup_streaming_success sourceName (some t)
    compression compresslevel excludes run h
  obtain rfl := Option.some.inj ht'
  have hne : p ≠ [] := by
    obtain ⟨q, hpq, hq, -⟩ := scanNode_shape excludes [] t p sz hmem
    rw [hpq]
    simpa using hq
  rw [← arcnameOf_cons sourceName p hne]
  exact List.mem_map.mpr ⟨(p, sz), hmem, rfl⟩

/-- Witness for C4 at the §8 scenario: `sub/b.txt` is archived as
`proj/sub/b.txt`. -/
theorem c4_entry_names_witness :
    (backup_streaming "proj" (some demoTree) ZIP_STORED none [".git"]).result
        = RunResult.success demoRun ∧
    (["sub", "b.txt"], 10) ∈ (iter_files_with_size demoTree [".git"]).1 ∧
    { name := "proj" ++ "/" ++ joinComponents ["sub", "b.txt"], size := 10,
      method := ZIP_STORED, level := none } ∈ demoRun.entries :=
  ⟨by decide, by decide,
    c4_entry_names "proj" demoTree ZIP_STORED none [".git"] demoRun (by decide)
      ["sub", "b.txt"] 10 (by decide)⟩

/-- C5: on a source directory whose scan totals 0 bytes, the run raises
the empty-source `ValueError` (`"No files to back up"`), and the trace
stops at `[mkdirDest, scanSource]`: the archive file is never opened, so
none is created on disk. -/
theorem c5_zero_total_empty_source_error (sourceName : String) (cs : FSList)
    (compression : Nat) (compresslevel : Option Nat) (excludes : List String)
    (h0 : (iter_files_with_size (FSNode.dir cs) excludes).2 = 0) :
    backup_streaming sourceName (some (FSNode.dir cs)) compression compresslevel excludes
      = { trace := [Effect.mkdirDest, Effect.scanSource],
          result := RunResult.failure BackupError.emptySource } := by
  simp [backup_streaming, h0]

/-- Witness for C5 on an empty source directory. -/
theorem c5_zero_total_empty_source_error_witness :
    (iter_files_with_size (FSNode.dir FSList.nil) []).2 = 0 ∧
    backup_streaming "proj" (some (FSNode.dir FSList.nil)) ZIP_STORED none []
      = { trace := [Effect.mkdirDest, Effect.scanSource],
          result := RunResult.failure BackupError.emptySource } :=
  ⟨by decide,
    c5_zero_total_empty_source_error "proj" FSList.nil ZIP_STORED none [] (by decide)⟩

/-- C6: on a source path that is missing or not a directory, the run
raises the invalid-source `ValueError` before any work: the trace is empty
— no destination directory is created, no scan runs, no archive is
opened. -/
theorem c6_invalid_source_error (sourceName : String) (source : Option FSNode)
    (compression : Nat) (compresslevel : Option Nat) (excludes : List String)
    (h : sourceIsDir source = false) :
    backup_streaming sourceName source compression compresslevel excludes
      = { trace := [], result := RunResult.failure BackupError.invalidSource } := by
  cases source with
  | none => simp [backup_streaming]
  | some t =>
    cases t with
    | file sz statOk isRegular => simp [backup_streaming]
    | dir cs => simp [sourceIsDir] at h

/-- Witness for C6 on a source path that is a regular file. -/
theorem c6_invalid_source_error_witness :
    sourceIsDir (some (FSNode.file 3 true true)) = false ∧
    backup_streaming "f" (some (FSNode.file 3 true true)) ZIP_STORED none []
      = { trace := [], result := RunResult.failure BackupError.invalidSource } :=
  ⟨rfl, c6_invalid_source_error "f" (some (FSNode.file 3 true true)) ZIP_STORED none [] rfl⟩

/-- C7: the compression choice is fixed at run start and applies to every
entry: `store` yields `(ZIP_STORED, None)` whatever level is supplied,
`deflate` yields `(ZIP_DEFLATED, level)` defaulting to level 1 when none
is supplied, and in every successful run each archive entry carries the
run's method and level unchanged. -/
theorem c7_compression_fixed :
    (∀ level : Option Nat,
        compression_from_args "store" level = Except.ok (ZIP_STORED, none)) ∧
    (∀ level : Nat,
        compression_from_args "deflate" (some level)
          = Except.ok (ZIP_DEFLATED, some level)) ∧
    (compression_from_args "deflate" none = Except.ok (ZIP_DEFLATED, some 1)) ∧
    (∀ (sourceName : String) (source : Option FSNode) (compression : Nat)
        (compresslevel : Option Nat) (excludes : List String) (run : ArchiveRun),
      (backup_streaming sourceName source compression compresslevel excludes).result
          = RunResult.success run →
      ∀ e ∈ run.entries, e.method = compression ∧ e.level = compresslevel) := by
  refine ⟨fun level => by simp [compression_from_args],
    fun level => by simp [compression_from_args],
    by simp [compression_from_args], ?_⟩
  intro sourceName source compression compresslevel excludes run h e he
  obtain ⟨t, -, -, rfl⟩ := backup_streaming_success sourceName source
    compression compresslevel excludes run h
  obtain ⟨p, sz, -, rfl⟩ := entriesOf_mem _ _ _ _ e he
  exact ⟨rfl, rfl⟩

/-- Witness for C7: concrete `compression_from_args` results and the
per-entry method/level of the §8 scenario run. -/
theorem c7_compression_fixed_witness :
    compression_from_args "store" (some 9) = Except.ok (ZIP_STORED, none) ∧
    compression_from_args "deflate" none = Except.ok (ZIP_DEFLATED, some 1) ∧
    ((backup_streaming "proj" (some demoTree) ZIP_STORED none [".git"]).result
        = RunResult.success demoRun ∧
      { name := "proj/a.txt", size := 5, method := ZIP_STORED, level := none }
          ∈ demoRun.entries ∧
      ({ name := "proj/a.txt", size := 5, method := ZIP_STORED, level := none }
          : ArchiveEntry).method = ZIP_STORED) :=
  ⟨c7_compression_fixed.1 (some 9), c7_compression_fixed.2.2.1,
    by decide, by decide,
    (c7_compression_fixed.2.2.2 "proj" (some demoTree) ZIP_STORED none [".git"]
      demoRun (by decide) _ (by decide)).1⟩

/-- C8: a file whose `stat` raises during the scan is skipped silently:
erasing all such entries from the tree leaves the scan result (list and
total) unchanged, and locally the `fnames` loop and the subdirectory
recursion both step over such an entry to the remaining files.  The scan
is a total function: such a failure never fails the scan itself. -/
theorem c8_stat_failure_skipped (excludes : List String) (t : FSNode)
    (path : List String) (name : String) (sz : Nat) (isRegular : Bool)
    (rest : FSList) :
    iter_files_with_size (dropUnstatNode t) excludes
      = iter_files_with_size t excludes ∧
    dirFiles path (FSList.cons name (FSNode.file sz false isRegular) rest)
      = dirFiles path rest ∧
    scanSubdirs excludes path (FSList.cons name (FSNode.file sz false isRegular) rest)
      = scanSubdirs excludes path rest := by
  refine ⟨scanNode_dropUnstat excludes [] t, ?_, rfl⟩
  simp [dirFiles]

/-- C9: a scan that finds files but only 0-byte ones still fails with the
empty-source error and opens no archive: the guard is `total == 0`, not an
emptiness test on the file list. -/
theorem c9_zero_sized_files_empty_source_error (sourceName : String) (cs : FSList)
    (compression : Nat) (compresslevel : Option Nat) (excludes : List String)
    (hne : (iter_files_with_size (FSNode.dir cs) excludes).1 ≠ [])
    (hz : ∀ f ∈ (iter_files_with_size (FSNode.dir cs) excludes).1, f.2 = 0) :
    backup_streaming sourceName (some (FSNode.dir cs)) compression compresslevel excludes
      = { trace := [Effect.mkdirDest, Effect.scanSource],
          result := RunResult.failure BackupError.emptySource } := by
  have h0 : (iter_files_with_size (FSNode.dir cs) excludes).2 = 0 := by
    rw [iter_files_with_size, scanNode_total excludes [] (FSNode.dir cs)]
    apply List.sum_eq_zero
    intro x hx
    rw [List.mem_map] at hx
    obtain ⟨f, hf, rfl⟩ := hx
    exact hz f hf
  simp [backup_streaming, h0]

/-- Witness for C9 on a directory holding a single 0-byte file: the file
list is non-empty, yet the run fails with the empty-source error. -/
theorem c9_zero_sized_files_empty_source_error_witness :
    (iter_files_with_size zeroTree []).1 = [(["empty.txt"], 0)] ∧
    backup_streaming "proj" (some zeroTree) ZIP_STORED none []
      = { trace := [Effect.mkdirDest, Effect.scanSource],
          result := RunResult.failure BackupError.emptySource } :=
  ⟨by decide,
    c9_zero_sized_files_empty_source_error "proj"
      (FSList.cons "empty.txt" (FSNode.file 0 true true) FSList.nil)
      ZIP_STORED none [] (by decide) (by decide)⟩

/-- C10: whenever the source validates as a directory, the trace starts
`[mkdirDest, scanSource]` — the destination directory (with parents) is
created after validation and before the scan; hence every run failing with
the empty-source error has already created the destination directory even
though no archive file is produced. -/
theorem c10_mkdir_after_validate_before_scan (sourceName : String)
    (source : Option FSNode) (compression : Nat) (compresslevel : Option Nat)
    (excludes : List String) :
    (sourceIsDir source = true →
      (backup_streaming sourceName source compression compresslevel excludes).trace.take 2
        = [Effect.mkdirDest, Effect.scanSource]) ∧
    ((backup_streaming sourceName source compression compresslevel excludes).result
        = RunResult.failure BackupError.emptySource →
      (backup_streaming sourceName source compression compresslevel excludes).trace
        = [Effect.mkdirDest, Effect.scanSource]) := by
  cases source with
  | none =>
    exact ⟨fun h => by simp [sourceIsDir] at h,
      fun h => by simp [backup_streaming] at h⟩
  | some t =>
    cases t with
    | file sz statOk isRegular =>
      exact ⟨fun h => by simp [sourceIsDir] at h,
        fun h => by simp [backup_streaming] at h⟩
    | dir cs =>
      by_cases h0 : (iter_files_with_size (FSNode.dir cs) excludes).2 = 0
      · exact ⟨fun _ => by simp [backup_streaming, h0],
          fun _ => by simp [backup_streaming, h0]⟩
      · exact ⟨fun _ => by simp [backup_streaming, h0],
          fun hres => by simp [backup_streaming, h0] at hres⟩

/-- Witness for C10 on an empty source directory: the run fails with the
empty-source error yet the trace records the destination directory
creation (before the scan, no archive step). -/
theorem c10_mkdir_after_validate_before_scan_witness :
    (backup_streaming "proj" (some emptyTree) ZIP_STORED none []).result
      = RunResult.failure BackupError.emptySource ∧
    (backup_streaming "proj" (some emptyTree) ZIP_STORED none []).trace
      = [Effect.mkdirDest, Effect.scanSource] :=
  ⟨by decide,
    (c10_mkdir_after_validate_before_scan "proj" (some emptyTree) ZIP_STORED none []).2
      (by decide)⟩

end Backuppy
